import Mathlib

/-!
Verification development for the `tws_tradingbot` repository.

The repository ships a SvelteKit web UI (strategy builder, API client,
WebSocket helpers) together with documentation of the rule-evaluation
engine.  The definitions below are shallow embeddings of the TypeScript
sources; JavaScript numbers are modelled as `ℚ`, JavaScript strings as
`String`, objects as Lean structures, and the mutable module state of
`api.ts` is threaded explicitly.  Stateful code with timers
(`createReconnectingWebSocket`) is embedded as a step function on an
explicit state type driven by an event trace.
-/

namespace TwsBot

/-! ## Reconnecting WebSocket (`createReconnectingWebSocket`)

The closure state of `createReconnectingWebSocket` is the record of its
captured mutable variables (`closed`, `retries`, `delay`) together with
the number of `setTimeout(connect, …)` callbacks currently scheduled and
a counter of `new WebSocket(…)` constructions.  Events model: a
scheduled `connect` timer firing, the socket's `onclose` handler
running, the socket's `onopen` handler running, and the caller invoking
the returned `close()`.  `maxRetries` defaults to `Infinity`, modelled
as `none`. -/

structure WSConfig where
  initialDelayMs : Nat
  maxDelayMs : Nat
  maxRetries : Option Nat

structure WSState where
  closed : Bool
  retries : Nat
  delay : Nat
  pendingTimers : Nat
  socketsCreated : Nat
  deriving DecidableEq, Repr

/-- `retries >= maxRetries` in the `onclose` handler (`false` when
`maxRetries` is `Infinity`). -/
def retriesExhausted (cfg : WSConfig) (s : WSState) : Bool :=
  match cfg.maxRetries with
  | some m => decide (m ≤ s.retries)
  | none => false

inductive WSEvent
  | timerFire
  | socketClose
  | socketOpen
  | userClose
  deriving DecidableEq, Repr

/-- One event of the `createReconnectingWebSocket` closure:
`timerFire` runs a scheduled `connect` (which returns immediately when
`closed`, else constructs a new `WebSocket`); `socketClose` runs the
`onclose` handler (which schedules a reconnect unless `closed` or
`retries >= maxRetries`, doubling the delay capped at `maxDelayMs`);
`socketOpen` runs the `onopen` handler (resetting `retries` and
`delay`); `userClose` runs the returned `close()` (setting `closed`). -/
def wsStep (cfg : WSConfig) (s : WSState) : WSEvent → WSState
  | .timerFire =>
      if s.pendingTimers = 0 then s
      else
        let s1 := { s with pendingTimers := s.pendingTimers - 1 }
        if s1.closed then s1
        else { s1 with socketsCreated := s1.socketsCreated + 1 }
  | .socketClose =>
      if s.closed || retriesExhausted cfg s then s
      else
        { s with
          retries := s.retries + 1
          pendingTimers := s.pendingTimers + 1
          delay := min cfg.maxDelayMs (s.delay * 2) }
  | .socketOpen => { s with retries := 0, delay := cfg.initialDelayMs }
  | .userClose => { s with closed := true }

/-- Running a trace of events through `wsStep`. -/
def wsRun (cfg : WSConfig) (s : WSState) : List WSEvent → WSState
  | [] => s
  | e :: es => wsRun cfg (wsStep cfg s e) es

/-! ## Crossover semantics (rule evaluation engine)

Modelled from the spec: the rule-evaluation engine itself is not among
the sources (only the strategy guide in the docs and the web UI are);
§4.2 of the spec and the strategy guide's CROSSES_ABOVE / CROSSES_BELOW
entries define the crossover operators over a pair of consecutive bars.
Operand values (JavaScript floats) are modelled as `ℚ`. -/

/-- Modelled from the spec: `crosses_above(a, b)` is true iff
`a[prev] <= b[prev]` and `a[curr] > b[curr]` (spec §4.2; strategy guide
"Previous bar: indicator_a <= indicator_b, Current bar:
indicator_a > indicator_b"). -/
def crossesAbove (aPrev bPrev aCurr bCurr : ℚ) : Bool :=
  decide (aPrev ≤ bPrev) && decide (bCurr < aCurr)

/-- Modelled from the spec: `crosses_below` is the mirror of
`crosses_above` with `>=`/`<` (spec §4.2; strategy guide "Previous bar:
indicator_a >= indicator_b, Current bar: indicator_a < indicator_b"). -/
def crossesBelow (aPrev bPrev aCurr bCurr : ℚ) : Bool :=
  decide (bPrev ≤ aPrev) && decide (aCurr < bCurr)

/-! ## JavaScript string primitives

Lean's own `String.toUpper`, `String.toLower`, `String.trim` and
`String.startsWith` are defined by well-founded recursion over byte
positions and do not reduce inside the kernel, so the JavaScript string
methods used by the sources are modelled directly on the character
lists underlying `String`. -/

/-- `String.prototype.toUpperCase`. -/
def jsToUpper (s : String) : String := ⟨s.data.map Char.toUpper⟩

/-- `String.prototype.toLowerCase`. -/
def jsToLower (s : String) : String := ⟨s.data.map Char.toLower⟩

/-- `String.prototype.trim`. -/
def jsTrim (s : String) : String :=
  ⟨((s.data.dropWhile Char.isWhitespace).reverse.dropWhile
      Char.isWhitespace).reverse⟩

/-- `String.prototype.startsWith`. -/
def jsStartsWith (s pre : String) : Bool := pre.data.isPrefixOf s.data

/-- `String.prototype.split` with a single-character separator. -/
def jsSplit (s : String) (sep : Char) : List String :=
  (s.data.splitOn sep).map List.asString

/-! ## Symbol selection
(`SymbolMultiSelect.svelte` / `SymbolSearch.svelte`) -/

structure SymbolRecord where
  symbol : String
  name : Option String
  exchange : Option String
  type : Option String
  deriving DecidableEq, Repr

/-- `addSymbol` of `SymbolMultiSelect.svelte`: uppercases the record's
symbol, leaves the selection alone when it is already included, else
appends it (the `emitChange`/`lastAdded` UI plumbing carries no
selection logic). -/
def addSymbol (selected : List String) (item : SymbolRecord) : List String :=
  let sym := jsToUpper item.symbol
  if selected.contains sym then selected else selected ++ [sym]

/-- `removeSymbol` of `SymbolMultiSelect.svelte`. -/
def removeSymbol (selected : List String) (sym : String) : List String :=
  selected.filter (fun s => s != sym)

/-- Result record of `fuzzyMatch` (`match` is a Lean keyword, so the
`match` field is called `isMatch`). -/
structure FuzzyResult where
  isMatch : Bool
  score : Int
  indices : List Nat
  deriving DecidableEq, Repr

/-- `String.prototype.indexOf` for a non-empty needle, on char lists:
index of the first occurrence of `needle` in the haystack. -/
def subIndex (needle : List Char) : List Char → Option Nat
  | [] => if needle.isPrefixOf ([] : List Char) then some 0 else none
  | c :: rest =>
      if needle.isPrefixOf (c :: rest) then some 0
      else (subIndex needle rest).map (· + 1)

/-- The subsequence-scan loop of `fuzzyMatch`: walks the haystack
matching query characters in order, accumulating matched indices (in
reverse) and a `+10` bonus per consecutive pair; returns the collected
indices, the bonus, and the unconsumed query suffix. -/
def fuzzyScan : List Char → List Char → Nat → List Nat → Int →
    List Nat × Int × List Char
  | [], qs, _, acc, bonus => (acc.reverse, bonus, qs)
  | _, [], _, acc, bonus => (acc.reverse, bonus, [])
  | c :: ts, qc :: qs, i, acc, bonus =>
      if c = qc then
        let bonus1 :=
          match acc with
          | j :: _ => if i = j + 1 then bonus + 10 else bonus
          | [] => bonus
        fuzzyScan ts qs (i + 1) (i :: acc) bonus1
      else fuzzyScan ts (qc :: qs) (i + 1) acc bonus

/-- `fuzzyMatch` of `SymbolSearch.svelte`: exact match scores 1000,
a start-of-string match `900 - length`, a substring match at index `i`
`500 - i`, and an in-order subsequence match `max (100 - spread + bonus)
1`; anything else is a non-match.  (`indices[len-1]` / `indices[0]` are
total here via `getLastD`/`headD`; the list is non-empty whenever the
whole query was consumed, since the query is non-empty.) -/
def fuzzyMatch (text q : String) : FuzzyResult :=
  if text = "" ∨ q = "" then ⟨false, 0, []⟩
  else
    let t := jsToLower text
    let ql := jsToLower q
    if t = ql then ⟨true, 1000, List.range ql.length⟩
    else if jsStartsWith t ql then
      ⟨true, 900 - (t.length : Int), List.range ql.length⟩
    else
      match subIndex ql.toList t.toList with
      | some idx => ⟨true, 500 - (idx : Int), (List.range ql.length).map (· + idx)⟩
      | none =>
          let r := fuzzyScan t.toList ql.toList 0 [] 0
          if r.2.2 = [] then
            let spread : Int := (r.1.getLastD 0 : Int) - (r.1.headD 0 : Int)
            ⟨true, max (100 - spread + r.2.1) 1, r.1⟩
          else ⟨false, 0, []⟩

/-- One scored search result of `buildResults`; the JavaScript spread
`{ ...item, score, matchType, indices }` is modelled by nesting the
record in the `item` field. -/
structure ScoredSymbol where
  item : SymbolRecord
  score : Int
  matchType : String
  indices : List Nat
  deriving DecidableEq, Repr

/-- The per-item body of `buildResults`'s loop: fuzzy-match the query
against symbol (+500) and name (+200), keep the better, add a +250
stock bonus, and drop the item when the best score is not positive. -/
def scoreItem (upper : String) (item : SymbolRecord) : Option ScoredSymbol :=
  let symbolMatch := fuzzyMatch item.symbol upper
  let nameMatch := fuzzyMatch (item.name.getD "") upper
  let best0 : Int × String × List Nat := (0, "symbol", [])
  let best1 :=
    if symbolMatch.isMatch then (symbolMatch.score + 500, "symbol", symbolMatch.indices)
    else best0
  let best2 :=
    if nameMatch.isMatch = true ∧ best1.1 < nameMatch.score + 200 then
      (nameMatch.score + 200, "name", nameMatch.indices)
    else best1
  if 0 < best2.1 then
    let sc :=
      if jsToLower (item.type.getD "") = "stock" then best2.1 + 250 else best2.1
    some ⟨item, sc, best2.2.1, best2.2.2⟩
  else none

/-- Stable insertion for the descending `sort((a, b) => b.score -
a.score)`: a later element goes after every already-placed element of
greater-or-equal score. -/
def insertByScore (x : ScoredSymbol) : List ScoredSymbol → List ScoredSymbol
  | [] => [x]
  | y :: ys => if x.score ≤ y.score then y :: insertByScore x ys else x :: y :: ys

/-- The `scored.sort((a, b) => b.score - a.score)` call as a stable
descending insertion sort. -/
def sortByScoreDesc (xs : List ScoredSymbol) : List ScoredSymbol :=
  xs.foldl (fun acc x => insertByScore x acc) []

/-- `buildResults` of `SymbolSearch.svelte`: empty for a blank query;
otherwise scores the non-excluded items (exclusion is by uppercased
symbol against the uppercased `exclude` list), sorts by descending
score, prefers stock-typed matches when `includeNonStocks` is off, and
truncates to `maxResults`. -/
def buildResults (items : List SymbolRecord) (nextQuery : String)
    (exclude : List String) (includeNonStocks : Bool) (maxResults : Nat) :
    List ScoredSymbol :=
  if jsTrim nextQuery = "" then []
  else
    let upper := jsToUpper nextQuery
    let excludeSet := exclude.map jsToUpper
    let scored := items.filterMap fun item =>
      if excludeSet.contains (jsToUpper item.symbol) then none
      else scoreItem upper item
    let sorted := sortByScoreDesc scored
    if !includeNonStocks then
      let stockMatches := sorted.filter fun r => jsToLower (r.item.type.getD "") == "stock"
      if stockMatches.length ≠ 0 then stockMatches.take maxResults
      else sorted.take maxResults
    else sorted.take maxResults

/-! ## Strategy builder (`routes/strategy/+page.svelte`)

The builder's `Indicator`, `Condition`, `Rule` and `Strategy` types,
with JavaScript numbers as `ℚ` and the dynamic
`params: Record<string, any>` as an association list of `ParamValue`s.
The `null` variant models both JavaScript `null` and `undefined`,
which the builder's `??=` assignments treat alike. -/

inductive ParamValue
  | num (q : ℚ)
  | str (s : String)
  | strList (l : List String)
  | null
  deriving DecidableEq, Repr

structure Indicator where
  type : String
  length : Option ℚ
  timeframe : String
  source : String
  symbol : Option String
  params : List (String × ParamValue)
  component : Option String
  deriving DecidableEq, Repr

/-- Property read `params[key]` on a dynamic object. -/
def pget : List (String × ParamValue) → String → Option ParamValue
  | [], _ => none
  | (k1, v) :: rest, k => if k1 = k then some v else pget rest k

/-- Property write `params[key] = value` (JavaScript objects keep a
key's position on reassignment and append fresh keys at the end). -/
def pset : List (String × ParamValue) → String → ParamValue →
    List (String × ParamValue)
  | [], k, v => [(k, v)]
  | (k1, v1) :: rest, k, v =>
      if k1 = k then (k, v) :: rest else (k1, v1) :: pset rest k v

/-- `params[key] ??= value`: assign only when the key is absent
(`undefined`) or `null`. -/
def psetD (ps : List (String × ParamValue)) (k : String) (v : ParamValue) :
    List (String × ParamValue) :=
  match pget ps k with
  | none => pset ps k v
  | some .null => pset ps k v
  | some _ => ps

/-- Whether `params[key]` is a defined, non-null value. -/
def pDefined (ps : List (String × ParamValue)) (k : String) : Bool :=
  match pget ps k with
  | none => false
  | some .null => false
  | some _ => true

/-- JavaScript truthiness of the `length` field (`!next.length` holds
for `undefined`, `null` and `0`). -/
def lengthTruthy : Option ℚ → Bool
  | none => false
  | some q => decide (q ≠ 0)

/-- `createIndicator` of the strategy builder. -/
def createIndicator (type : String) : Indicator :=
  { type
    length :=
      if type = "ema" ∨ type = "sma" ∨ type = "rsi" then some 9 else none
    timeframe := "5m"
    source := "close"
    symbol := none
    params := []
    component := none }

/-- The `.split(',').map((entry) => entry.trim()).filter(Boolean)`
conversion applied to a string-valued `feature_columns`. -/
def splitFeatureColumns (s : String) : List String :=
  ((jsSplit s ',').map jsTrim).filter (fun entry => entry ≠ "")

/-- The ema/sma/rsi branch of `normalizeIndicator`:
`if (['ema','sma','rsi'].includes(next.type) && !next.length)
next.length = 9`. -/
def normEmaLen (next : Indicator) : Indicator :=
  if (next.type = "ema" ∨ next.type = "sma" ∨ next.type = "rsi") ∧
      lengthTruthy next.length = false then
    { next with length := some 9 }
  else next

/-- The macd branch of `normalizeIndicator`. -/
def normMacd (next : Indicator) : Indicator :=
  if next.type = "macd" then
    { next with
      params := psetD (psetD (psetD next.params "fast_period" (.num 12))
        "slow_period" (.num 26)) "signal_period" (.num 9) }
  else next

/-- The bollinger branch of `normalizeIndicator`. -/
def normBollinger (next : Indicator) : Indicator :=
  if next.type = "bollinger" then
    { next with
      length := some (next.length.getD 20)
      params := psetD (psetD next.params "std_dev" (.num 2)) "offset" (.num 0) }
  else next

/-- The stochastic branch of `normalizeIndicator`. -/
def normStochastic (next : Indicator) : Indicator :=
  if next.type = "stochastic" then
    { next with
      params := psetD (psetD (psetD next.params "k_period" (.num 14))
        "d_period" (.num 3)) "smooth_k" (.num 3) }
  else next

/-- The alligator branch of `normalizeIndicator`. -/
def normAlligator (next : Indicator) : Indicator :=
  if next.type = "alligator" then
    { next with
      params := psetD (psetD (psetD (psetD (psetD (psetD next.params
        "jaw_period" (.num 13)) "jaw_shift" (.num 8)) "teeth_period" (.num 8))
        "teeth_shift" (.num 5)) "lips_period" (.num 5)) "lips_shift" (.num 3) }
  else next

/-- The first ml_signal branch of `normalizeIndicator`
(`next.params.column ??= 'signal'`). -/
def normMlColumn (next : Indicator) : Indicator :=
  if next.type = "ml_signal" then
    { next with params := psetD next.params "column" (.str "signal") }
  else next

/-- The second ml_signal branch of `normalizeIndicator`: a
string-valued `feature_columns` is split on commas, trimmed and purged
of empty entries. -/
def normMlFeatures (next : Indicator) : Indicator :=
  if next.type = "ml_signal" then
    match pget next.params "feature_columns" with
    | some (.str s) =>
        { next with
          params := pset next.params "feature_columns"
            (.strList (splitFeatureColumns s)) }
    | _ => next
  else next

/-- `normalizeIndicator` of the strategy builder: fills type-specific
default parameters (`??=` only overwrites absent/`null` entries; the
ema/sma/rsi branch also overwrites a falsy `0` length) and converts a
string-valued `feature_columns` into a trimmed array with empty
entries dropped.  The sequential reassignments of `next` in the source
are split into one function per `if` block, composed in source
order. -/
def normalizeIndicator (indicator : Indicator) : Indicator :=
  normMlFeatures (normMlColumn (normAlligator (normStochastic
    (normBollinger (normMacd (normEmaLen indicator))))))

structure Condition where
  type : String
  indicator_a : Indicator
  indicator_b : Option Indicator
  threshold : Option ℚ
  lookback_periods : ℚ
  range_start : Option String
  range_end : Option String
  deriving DecidableEq, Repr

structure Rule where
  id : String
  name : String
  description : Option String
  scope : String
  condition : Condition
  action : String
  enabled : Bool
  priority : ℚ
  deriving DecidableEq, Repr

structure Strategy where
  id : String
  name : String
  version : String
  description : Option String
  tickers : List String
  rules : List Rule
  initial_capital : ℚ
  max_positions : ℚ
  position_size_mode : String
  position_size_value : ℚ
  deriving DecidableEq, Repr

/-- The builder's form state feeding `buildNewRule` (`ruleName`,
`ruleScope`, `conditionType`, `actionType`, `priority`,
`lookbackPeriods`, `compareMode`, `thresholdValue`, `rangeStart`,
`rangeEnd`, `indicatorA`, `indicatorB`). -/
structure BuilderForm where
  ruleName : String
  ruleScope : String
  conditionType : String
  actionType : String
  priority : ℚ
  lookbackPeriods : ℚ
  compareMode : String
  thresholdValue : ℚ
  rangeStart : String
  rangeEnd : String
  indicatorA : Indicator
  indicatorB : Indicator
  deriving DecidableEq, Repr

/-- `buildNewRule` of the strategy builder (the fresh
`crypto.randomUUID()` is passed in as `newId`; `ruleName ||
'Unnamed Rule'` falls back on the empty string). -/
def buildNewRule (f : BuilderForm) (newId : String) : Rule :=
  let condition : Condition :=
    { type := f.conditionType
      indicator_a := normalizeIndicator f.indicatorA
      indicator_b := none
      threshold := none
      lookback_periods := f.lookbackPeriods
      range_start := none
      range_end := none }
  let needsIndicatorB := f.conditionType ∈
    ["crosses_above", "crosses_below", "greater_than", "less_than"]
  let needsThreshold := f.conditionType ∈
    ["greater_than", "less_than", "slope_above", "slope_below"]
  let condition :=
    if f.conditionType = "within_range" then
      { condition with
        range_start := some f.rangeStart
        range_end := some f.rangeEnd }
    else if needsIndicatorB ∧ (¬needsThreshold ∨ f.compareMode = "indicator") then
      { condition with indicator_b := some (normalizeIndicator f.indicatorB) }
    else if needsThreshold then
      { condition with threshold := some f.thresholdValue }
    else condition
  { id := newId
    name := if f.ruleName = "" then "Unnamed Rule" else f.ruleName
    description := none
    scope := f.ruleScope
    condition := condition
    action := f.actionType
    enabled := true
    priority := f.priority }

structure SelectOption where
  label : String
  value : String
  deriving DecidableEq, Repr

/-- `conditionOptions` of the strategy builder; the `label` field holds
the key passed to the `t` translation function. -/
def conditionOptions : List SelectOption :=
  [⟨"crosses above", "crosses_above"⟩,
   ⟨"crosses below", "crosses_below"⟩,
   ⟨"greater than (>)", "greater_than"⟩,
   ⟨"less than (<)", "less_than"⟩,
   ⟨"slope above (>)", "slope_above"⟩,
   ⟨"slope below (<)", "slope_below"⟩,
   ⟨"within time range", "within_range"⟩]

/-- The spec's condition-type operator enum (§3, Condition), written
from the spec's words for comparison with `conditionOptions`. -/
def specConditionTypes : List String :=
  ["crosses_above", "crosses_below", "greater_than", "less_than", "equals",
   "slope_above", "slope_below", "within_range", "outside_range",
   "increasing", "decreasing"]

/-- `toggleRule` of the strategy builder: flips `enabled` on every rule
whose id matches (the surrounding `if (!strategy) return` guard and the
`updateStrategy` JSON refresh are UI plumbing around this pure
transformation). -/
def toggleRule (strategy : Strategy) (id : String) : Strategy :=
  { strategy with
    rules := strategy.rules.map fun rule =>
      if rule.id = id then { rule with enabled := !rule.enabled } else rule }

/-! ## API client (`web/src/lib/api.ts`)

The module's mutable state (the `cache` map and `lastApiError`) is
threaded explicitly; `Date.now()` is passed in as `now`; the HTTP
layer is modelled by passing in the `Response` that the `fetch` would
resolve to.  `timedFetch`'s REST metrics record wall-clock timing and
are outside the model. -/

structure ApiError where
  message : String
  status : Int
  statusText : String
  details : String
  url : String
  deriving DecidableEq, Repr

/-- The fields of a JSON-parsed error body that `buildApiError` reads:
the `detail` / `message` / `error` entries, when present as strings. -/
structure ParsedErrorBody where
  detail : Option String
  message : Option String
  error : Option String
  deriving DecidableEq, Repr

/-- The subset of a `fetch` `Response` that `api.ts` consumes: `ok`,
`status`, `statusText`, `url`, the raw `text()` body and the result of
`JSON.parse(text)` when the text parses. -/
structure HttpResponse where
  ok : Bool
  status : Int
  statusText : String
  url : String
  text : String
  parsed : Option ParsedErrorBody
  deriving DecidableEq, Repr

/-- The parsed body of the backtest-results endpoint
(`BacktestResultResponse`); the opaque `result` record is carried as
its serialized form. -/
structure BacktestResultResponse where
  job_id : String
  status : String
  result : Option String
  error : Option String
  deriving DecidableEq, Repr

/-- A value stored in the client cache (the `Map<string,
CacheEntry<unknown>>` is untyped; the variants cover what the
embedding stores). -/
inductive CacheValue
  | backtest (r : BacktestResultResponse)
  | raw (s : String)
  deriving DecidableEq, Repr

structure CacheEntry where
  value : CacheValue
  expiresAt : Int
  deriving DecidableEq, Repr

structure ClientState where
  cache : List (String × CacheEntry)
  lastApiError : Option ApiError
  deriving DecidableEq, Repr

/-- The `(typeof parsed.x === 'string' && parsed.x) || …` chain of
`buildApiError`: the first present, non-empty string, else `''`. -/
def firstTruthy : List (Option String) → String
  | [] => ""
  | some s :: rest => if s ≠ "" then s else firstTruthy rest
  | none :: rest => firstTruthy rest

/-- `String.prototype.slice(0, n)`. -/
def jsSlice (s : String) (n : Nat) : String := ⟨s.data.take n⟩

/-- The `ApiError` value constructed by `buildApiError` for a non-ok
response: the detail is the parsed body's first truthy
detail/message/error string, else the raw text; the message is
`label + " failed: " + status [+ " " + statusText] [+ " - " +
detail.slice(0, 300)]`. -/
def buildApiErrorE (response : HttpResponse) (label : String) : ApiError :=
  let detail :=
    if response.text = "" then ""
    else
      match response.parsed with
      | some parsed =>
          let candidate :=
            firstTruthy [parsed.detail, parsed.message, parsed.error]
          if candidate ≠ "" then candidate else response.text
      | none => response.text
  let trimmed := jsTrim detail
  let detailText :=
    if trimmed ≠ "" then " - " ++ jsSlice trimmed 300 else ""
  let statusText :=
    if response.statusText ≠ "" then " " ++ response.statusText else ""
  let message :=
    label ++ " failed: " ++ toString response.status ++ statusText ++ detailText
  ⟨message, response.status, response.statusText, trimmed, response.url⟩

/-- `buildApiError` with its `lastApiError = error` side effect. -/
def buildApiError (response : HttpResponse) (label : String)
    (st : ClientState) : ApiError × ClientState :=
  let e := buildApiErrorE response label
  (e, { st with lastApiError := some e })

/-- The parsed `{valid, errors}` body of a validate response. -/
structure ValidateResult where
  valid : Bool
  errors : List String
  deriving DecidableEq, Repr

/-- The response to a validate call: the transport fields plus the
parsed JSON body that `response.json()` yields when the response is
ok. -/
structure ValidateResponse where
  http : HttpResponse
  body : ValidateResult
  deriving DecidableEq, Repr

/-- `validateStrategy`: POSTs the strategy and returns the backend's
verdict unchanged; on a non-ok response it throws the `ApiError` built
by `buildApiError` (which records it as the last API error); it never
writes the cache.  The serialized strategy argument only feeds the
request body, so it is not a parameter of the embedding. -/
def validateStrategy (resp : ValidateResponse) (st : ClientState) :
    Except ApiError ValidateResult × ClientState :=
  if resp.http.ok then (.ok resp.body, st)
  else
    let r := buildApiError resp.http "Strategy validation" st
    (.error r.1, r.2)

/-- Cache lookup (`cache.get(key)`). -/
def cacheGet : List (String × CacheEntry) → String → Option CacheEntry
  | [], _ => none
  | (k1, e) :: rest, k => if k1 = k then some e else cacheGet rest k

/-- Cache insertion (`cache.set(key, entry)`). -/
def cacheSet : List (String × CacheEntry) → String → CacheEntry →
    List (String × CacheEntry)
  | [], k, e => [(k, e)]
  | (k1, e1) :: rest, k, e =>
      if k1 = k then (k, e) :: rest else (k1, e1) :: cacheSet rest k e

/-- `getCached`: returns the cached value when present and fresh, and
deletes an expired entry (`Date.now() > entry.expiresAt`). -/
def getCached (st : ClientState) (key : String) (now : Int) :
    Option CacheValue × ClientState :=
  match cacheGet st.cache key with
  | none => (none, st)
  | some entry =>
      if entry.expiresAt < now then
        (none, { st with cache := st.cache.filter (fun p => p.1 != key) })
      else (some entry.value, st)

/-- `setCached`: stores the value with expiry `Date.now() + ttlMs`. -/
def setCached (st : ClientState) (key : String) (value : CacheValue)
    (ttlMs : Int) (now : Int) : ClientState :=
  { st with cache := cacheSet st.cache key ⟨value, now + ttlMs⟩ }

/-- The cache key of `getBacktestResults`. -/
def backtestResultsKey (jobId : String) : String :=
  "backtest_results:" ++ jobId

/-- The response to a backtest-results call: transport fields plus the
parsed `BacktestResultResponse` body. -/
structure BacktestResultsHttp where
  http : HttpResponse
  body : BacktestResultResponse
  deriving DecidableEq, Repr

/-- `getBacktestResults`: serves a fresh cached value unless `force`;
otherwise fetches, throws on a non-ok response, and caches the parsed
body only when `data?.status === 'completed'`.  `ttl` is the current
`cachePolicy.backtestResults`. -/
def getBacktestResults (jobId : String) (force : Bool)
    (resp : BacktestResultsHttp) (st : ClientState) (now : Int) (ttl : Int) :
    Except ApiError CacheValue × ClientState :=
  let cacheKey := backtestResultsKey jobId
  match (if force then (none, st) else getCached st cacheKey now) with
  | (some v, st1) => (.ok v, st1)
  | (none, st1) =>
      if resp.http.ok = false then
        let r := buildApiError resp.http "Backtest results" st1
        (.error r.1, r.2)
      else
        let data := resp.body
        if data.status = "completed" then
          (.ok (.backtest data),
            setCached st1 cacheKey (.backtest data) ttl now)
        else (.ok (.backtest data), st1)

/-! ## Strategy evaluator (rule evaluation engine)

Modelled from the spec: the Strategy Evaluator (spec §4.4) is not
among the sources here — only the docs and the web UI are — so the
gate / per-ticker cycle is modelled from the spec's state machine:
enabled global-scope filter rules are evaluated first in priority
order, any definitive `false` closes the gate for the whole cycle
(`Unavailable` filters are non-blocking), and per-ticker buy/sell
rules resolve first-match-wins in priority order.  Condition
evaluation is abstracted as the functions an `EvaluationContext`
supplies. -/

inductive TriBool
  | isTrue
  | isFalse
  | unavailable
  deriving DecidableEq, Repr

inductive RuleScope
  | global
  | perTicker
  deriving DecidableEq, Repr

inductive RuleActionKind
  | buy
  | sell
  | filter
  deriving DecidableEq, Repr

/-- Modelled from the spec: the fields of a rule that the evaluator's
control flow reads (§3 Rule). -/
structure EvalRule where
  id : String
  scope : RuleScope
  action : RuleActionKind
  enabled : Bool
  priority : Int
  deriving DecidableEq, Repr

inductive TradeAction
  | buy
  | sell
  | noAction
  deriving DecidableEq, Repr

/-- Modelled from the spec: stable insertion for the ascending
priority order (lower priority number evaluates first, ties broken by
declaration order). -/
def insertByPriority (x : EvalRule) : List EvalRule → List EvalRule
  | [] => [x]
  | y :: ys =>
      if y.priority ≤ x.priority then y :: insertByPriority x ys
      else x :: y :: ys

/-- Modelled from the spec: rules sorted by priority, stably. -/
def sortByPriority (rules : List EvalRule) : List EvalRule :=
  rules.foldl (fun acc x => insertByPriority x acc) []

/-- Modelled from the spec (§4.4 gate phase): the gate is closed iff
some enabled global-scope filter rule's condition evaluates
definitively to `false`; `Unavailable` filters are non-blocking. -/
def gateClosed (rules : List EvalRule) (evalG : EvalRule → TriBool) : Bool :=
  (sortByPriority (rules.filter fun r =>
    r.enabled && r.scope == .global && r.action == .filter)).any
    fun r => evalG r == .isFalse

/-- Modelled from the spec (§4.3 Rule Resolver): a disabled rule
resolves to `none`; an `Unavailable` or `false` condition produces no
outcome; a true condition carries the rule's action. -/
def resolveRule (r : EvalRule) (ev : TriBool) : Option RuleActionKind :=
  if !r.enabled then none
  else
    match ev with
    | .isTrue => some r.action
    | _ => none

/-- Modelled from the spec (§4.4 per-ticker phase): first-match-wins
over the instrument's per-ticker buy/sell rules in priority order
(only per-ticker rules with action buy/sell produce actions, §4.4
item 3). -/
def evalTicker (rules : List EvalRule) (evalT : String → EvalRule → TriBool)
    (sym : String) : TradeAction :=
  let candidates := sortByPriority (rules.filter fun r =>
    r.scope == .perTicker && (r.action == .buy || r.action == .sell))
  match candidates.findSome? (fun r => resolveRule r (evalT sym r)) with
  | some .buy => .buy
  | some .sell => .sell
  | _ => .noAction

/-- Modelled from the spec (§4.4): one evaluation cycle — the gate
phase runs first; when the gate is closed the emitted action map is
empty; otherwise each ticker gets its first-match action. -/
def evaluateCycle (rules : List EvalRule) (tickers : List String)
    (evalG : EvalRule → TriBool) (evalT : String → EvalRule → TriBool) :
    List (String × TradeAction) :=
  if gateClosed rules evalG then []
  else tickers.map fun sym => (sym, evalTicker rules evalT sym)

/-! ## Properties -/

theorem wsStep_of_closed (cfg : WSConfig) (s : WSState) (e : WSEvent)
    (h : s.closed = true) :
    (wsStep cfg s e).socketsCreated = s.socketsCreated ∧
      (wsStep cfg s e).closed = true := by
  cases e <;> simp [wsStep, h]
  split <;> simp [h]

theorem wsRun_of_closed (cfg : WSConfig) (es : List WSEvent) (s : WSState)
    (h : s.closed = true) :
    (wsRun cfg s es).socketsCreated = s.socketsCreated ∧
      (wsRun cfg s es).closed = true := by
  induction es generalizing s with
  | nil => exact ⟨rfl, h⟩
  | cons e es ih =>
      obtain ⟨h1, h2⟩ := wsStep_of_closed cfg s e h
      obtain ⟨h3, h4⟩ := ih (wsStep cfg s e) h2
      exact ⟨h3.trans h1, h4⟩

/-- C10: after `close()` on the handle returned by
`createReconnectingWebSocket` is invoked (the `closed` flag is set), no
new `WebSocket` connection is ever created by any subsequent trace of
timer/handler events — an already-scheduled reconnect finds `closed` set
and returns without connecting — and the `onclose` handler schedules no
further attempts once `retries >= maxRetries`. -/
theorem closed_socket_never_reconnects (cfg : WSConfig) :
    (∀ (s : WSState) (es : List WSEvent), s.closed = true →
        (wsRun cfg s es).socketsCreated = s.socketsCreated ∧
          (wsRun cfg s es).closed = true) ∧
    (∀ s : WSState, retriesExhausted cfg s = true →
        wsStep cfg s .socketClose = s) := by
  refine ⟨fun s es h => wsRun_of_closed cfg es s h, fun s h => ?_⟩
  simp [wsStep, h]

/-- Concrete run of `closed_socket_never_reconnects`: with the default
configuration, a state that is closed with two pending reconnect timers
and three sockets created so far still has exactly three sockets created
after the timers fire and the socket closes, and a state that has
exhausted its two allowed retries is unchanged by `onclose`. -/
theorem closed_socket_never_reconnects_witness :
    (wsRun ⟨500, 5000, none⟩ ⟨true, 1, 500, 2, 3⟩
        [.timerFire, .socketClose, .timerFire]).socketsCreated = 3 ∧
      wsStep ⟨500, 5000, some 2⟩ ⟨false, 2, 1000, 0, 1⟩ .socketClose =
        ⟨false, 2, 1000, 0, 1⟩ :=
  ⟨((closed_socket_never_reconnects ⟨500, 5000, none⟩).1 ⟨true, 1, 500, 2, 3⟩
      [.timerFire, .socketClose, .timerFire] rfl).1,
    (closed_socket_never_reconnects ⟨500, 5000, some 2⟩).2
      ⟨false, 2, 1000, 0, 1⟩ (by decide)⟩

/-- C4: `crosses_above(a,b)` and `crosses_below(a,b)` are mutually
exclusive — for any operand values on a pair of consecutive bars they
are never both true. -/
theorem crossesAbove_crossesBelow_mutually_exclusive
    (aPrev bPrev aCurr bCurr : ℚ) :
    (crossesAbove aPrev bPrev aCurr bCurr &&
        crossesBelow aPrev bPrev aCurr bCurr) = false := by
  rcases le_or_lt aCurr bCurr with h | h
  · simp [crossesAbove, not_lt.mpr h]
  · simp [crossesBelow, not_lt.mpr h.le]

theorem mem_insertByScore {a x : ScoredSymbol} {l : List ScoredSymbol} :
    a ∈ insertByScore x l ↔ a = x ∨ a ∈ l := by
  induction l with
  | nil => simp [insertByScore]
  | cons y ys ih =>
      simp only [insertByScore]
      split
      · simp [ih]; tauto
      · simp

theorem mem_sortByScoreDesc {a : ScoredSymbol} {xs : List ScoredSymbol} :
    a ∈ sortByScoreDesc xs ↔ a ∈ xs := by
  suffices h : ∀ acc : List ScoredSymbol,
      a ∈ xs.foldl (fun acc x => insertByScore x acc) acc ↔ a ∈ acc ∨ a ∈ xs by
    simpa [sortByScoreDesc] using h []
  induction xs with
  | nil => simp
  | cons x xs ih =>
      intro acc
      rw [List.foldl_cons, ih, mem_insertByScore]
      simp
      tauto

theorem scoreItem_item {upper : String} {item : SymbolRecord}
    {r : ScoredSymbol} (h : scoreItem upper item = some r) : r.item = item := by
  unfold scoreItem at h
  dsimp only at h
  obtain ⟨-, h1⟩ := Option.ite_none_right_eq_some.mp h
  exact congrArg ScoredSymbol.item (Option.some_inj.mp h1).symm

/-- C6: the selected ticker list never acquires duplicates.
`addSymbol` leaves a selection already containing the uppercased symbol
unchanged and otherwise appends the uppercased symbol exactly once,
preserving duplicate-freedom; `removeSymbol` only removes elements
(its result is a sublist) and preserves duplicate-freedom; and
`buildResults` never offers a symbol whose uppercased form is in the
(case-insensitively uppercased) exclusion list. -/
theorem selected_symbols_nodup :
    (∀ (selected : List String) (item : SymbolRecord),
        (selected.contains (jsToUpper item.symbol) = true →
          addSymbol selected item = selected) ∧
        (selected.contains (jsToUpper item.symbol) = false →
          addSymbol selected item = selected ++ [jsToUpper item.symbol]) ∧
        (selected.Nodup → (addSymbol selected item).Nodup)) ∧
    (∀ (selected : List String) (sym : String),
        (removeSymbol selected sym).Sublist selected ∧
        (selected.Nodup → (removeSymbol selected sym).Nodup)) ∧
    (∀ (items : List SymbolRecord) (q : String) (exclude : List String)
        (inc : Bool) (maxResults : Nat) (r : ScoredSymbol),
        r ∈ buildResults items q exclude inc maxResults →
          (exclude.map jsToUpper).contains (jsToUpper r.item.symbol) = false) := by
  refine ⟨fun selected item => ⟨fun h => ?_, fun h => ?_, fun hn => ?_⟩,
    fun selected sym => ⟨List.filter_sublist _, fun hn => hn.filter _⟩,
    fun items q exclude inc maxR r hr => ?_⟩
  · have hm : jsToUpper item.symbol ∈ selected := by simpa using h
    simp [addSymbol, hm]
  · have hm : jsToUpper item.symbol ∉ selected := by simpa using h
    simp [addSymbol, hm]
  · by_cases hmem : jsToUpper item.symbol ∈ selected
    · simpa [addSymbol, hmem] using hn
    · simp [addSymbol, hmem, List.nodup_append, hn]
  · unfold buildResults at hr
    by_cases hq : jsTrim q = ""
    · simp [hq] at hr
    · rw [if_neg hq] at hr
      dsimp only at hr
      have hsorted : r ∈ sortByScoreDesc (items.filterMap fun item =>
          if (exclude.map jsToUpper).contains (jsToUpper item.symbol) then none
          else scoreItem (jsToUpper q) item) := by
        split at hr
        · split at hr
          · exact List.mem_of_mem_filter (List.mem_of_mem_take hr)
          · exact List.mem_of_mem_take hr
        · exact List.mem_of_mem_take hr
      rw [mem_sortByScoreDesc] at hsorted
      obtain ⟨it, hit, hf⟩ := List.mem_filterMap.mp hsorted
      by_cases hex : (exclude.map jsToUpper).contains (jsToUpper it.symbol)
      · rw [if_pos hex] at hf
        cases hf
      · rw [if_neg hex] at hf
        rw [scoreItem_item hf]
        exact Bool.eq_false_iff.mpr hex

/-- Concrete run of `selected_symbols_nodup`: adding an
already-selected symbol (case-insensitively) is a no-op, adding a fresh
one appends its uppercased form, removal yields a sublist, and a search
for "MS" with "AAPL" excluded only returns non-excluded symbols. -/
theorem selected_symbols_nodup_witness :
    addSymbol ["SPY"] ⟨"spy", none, none, none⟩ = ["SPY"] ∧
    addSymbol ["SPY"] ⟨"qqq", none, none, none⟩ = ["SPY"] ++ ["QQQ"] ∧
    (removeSymbol ["SPY", "QQQ"] "QQQ").Sublist ["SPY", "QQQ"] ∧
    ((["AAPL"].map jsToUpper).contains (jsToUpper
      (⟨⟨"MSFT", some "Microsoft", none, some "stock"⟩, 1646, "symbol", [0, 1]⟩ :
        ScoredSymbol).item.symbol) = false) :=
  ⟨(selected_symbols_nodup.1 ["SPY"] ⟨"spy", none, none, none⟩).1 (by decide),
    (selected_symbols_nodup.1 ["SPY"] ⟨"qqq", none, none, none⟩).2.1 (by decide),
    (selected_symbols_nodup.2.1 ["SPY", "QQQ"] "QQQ").1,
    selected_symbols_nodup.2.2
      [⟨"MSFT", some "Microsoft", none, some "stock"⟩] "MS" ["AAPL"] false 15
      ⟨⟨"MSFT", some "Microsoft", none, some "stock"⟩, 1646, "symbol", [0, 1]⟩
      (by decide)⟩

theorem pget_pset_self (ps : List (String × ParamValue)) (k : String)
    (v : ParamValue) : pget (pset ps k v) k = some v := by
  induction ps with
  | nil => simp [pset, pget]
  | cons hd rest ih =>
      obtain ⟨k1, v1⟩ := hd
      by_cases h : k1 = k
      · simp [pset, pget, h]
      · simp [pset, pget, h, ih]

theorem pget_pset_ne (ps : List (String × ParamValue)) {k1 k : String}
    (v : ParamValue) (h : k1 ≠ k) : pget (pset ps k1 v) k = pget ps k := by
  induction ps with
  | nil => simp [pset, pget, h]
  | cons hd rest ih =>
      obtain ⟨k2, v2⟩ := hd
      by_cases h2 : k2 = k1
      · subst h2
        simp [pset, pget, h]
      · simp only [pset, if_neg h2]
        by_cases h3 : k2 = k
        · simp [pget, h3]
        · simp [pget, h3, ih]

theorem psetD_of_defined (ps : List (String × ParamValue)) (k : String)
    (v : ParamValue) (h : pDefined ps k = true) : psetD ps k v = ps := by
  unfold pDefined at h
  unfold psetD
  cases hg : pget ps k with
  | none => simp_all
  | some val => cases val <;> simp_all

theorem pget_psetD_of_undef (ps : List (String × ParamValue)) (k : String)
    (v : ParamValue) (h : pDefined ps k = false) :
    pget (psetD ps k v) k = some v := by
  unfold pDefined at h
  unfold psetD
  cases hg : pget ps k with
  | none => exact pget_pset_self ps k v
  | some val =>
      cases val <;> simp_all [pget_pset_self]

theorem pDefined_psetD_self (ps : List (String × ParamValue)) (k : String)
    (v : ParamValue) (hv : v ≠ .null) : pDefined (psetD ps k v) k = true := by
  by_cases h : pDefined ps k
  · rw [psetD_of_defined ps k v h]
    exact h
  · have h2 := pget_psetD_of_undef ps k v (by simpa using h)
    unfold pDefined
    rw [h2]
    cases v <;> simp_all

theorem pget_psetD_ne (ps : List (String × ParamValue)) {k1 k : String}
    (v : ParamValue) (h : k1 ≠ k) : pget (psetD ps k1 v) k = pget ps k := by
  unfold psetD
  cases hg : pget ps k1 with
  | none => exact pget_pset_ne ps v h
  | some val => cases val <;> simp [pget_pset_ne ps v h]

theorem pDefined_psetD_ne (ps : List (String × ParamValue)) {k1 k : String}
    (v : ParamValue) (h : k1 ≠ k) :
    pDefined (psetD ps k1 v) k = pDefined ps k := by
  unfold pDefined
  rw [pget_psetD_ne ps v h]

/-- C5 counterexample: the spec's operator enum contains `equals`, but
no element of the builder's `conditionOptions` has `equals` as its
value (the claim fails at the operator `equals`; `outside_range`,
`increasing` and `decreasing` are likewise absent). -/
theorem conditionOptions_missing_equals :
    "equals" ∈ specConditionTypes ∧
      ∀ opt ∈ conditionOptions, opt.value ≠ "equals" := by decide

/-- C5 (amended): the selectable condition options cover exactly the
seven operators crosses_above, crosses_below, greater_than, less_than,
slope_above, slope_below and within_range; the spec enum's remaining
operators equals, outside_range, increasing and decreasing have no
selectable option. -/
theorem conditionOptions_values :
    conditionOptions.map SelectOption.value =
      ["crosses_above", "crosses_below", "greater_than", "less_than",
       "slope_above", "slope_below", "within_range"] ∧
      ∀ op ∈ ["equals", "outside_range", "increasing", "decreasing"],
        ∀ opt ∈ conditionOptions, opt.value ≠ op := by decide

/-- C8: `toggleRule` negates `enabled` on exactly the rules whose id
matches: the rule list keeps its length and order, a matching position
changes only its `enabled` flag, a non-matching position is unchanged,
the whole strategy is unchanged when no rule carries the id, and every
other strategy field is preserved (the input itself is never mutated —
the embedding is a pure function of the input strategy). -/
theorem toggleRule_frame (strategy : Strategy) (id : String) :
    ((toggleRule strategy id).rules.length = strategy.rules.length) ∧
    (∀ (i : Nat) (h1 : i < strategy.rules.length)
        (h2 : i < (toggleRule strategy id).rules.length),
      ((strategy.rules.get ⟨i, h1⟩).id = id →
        (toggleRule strategy id).rules.get ⟨i, h2⟩ =
          { strategy.rules.get ⟨i, h1⟩ with
            enabled := !(strategy.rules.get ⟨i, h1⟩).enabled }) ∧
      ((strategy.rules.get ⟨i, h1⟩).id ≠ id →
        (toggleRule strategy id).rules.get ⟨i, h2⟩ =
          strategy.rules.get ⟨i, h1⟩)) ∧
    ((∀ r ∈ strategy.rules, r.id ≠ id) → toggleRule strategy id = strategy) ∧
    (toggleRule strategy id).id = strategy.id ∧
    (toggleRule strategy id).name = strategy.name ∧
    (toggleRule strategy id).version = strategy.version ∧
    (toggleRule strategy id).description = strategy.description ∧
    (toggleRule strategy id).tickers = strategy.tickers ∧
    (toggleRule strategy id).initial_capital = strategy.initial_capital ∧
    (toggleRule strategy id).max_positions = strategy.max_positions ∧
    (toggleRule strategy id).position_size_mode = strategy.position_size_mode ∧
    (toggleRule strategy id).position_size_value = strategy.position_size_value := by
  refine ⟨by simp [toggleRule], fun i h1 h2 => ⟨fun hm => ?_, fun hm => ?_⟩,
    fun hnone => ?_, rfl, rfl, rfl, rfl, rfl, rfl, rfl, rfl, rfl⟩
  · simp only [List.get_eq_getElem] at hm
    simp only [toggleRule, List.get_eq_getElem, List.getElem_map]
    rw [if_pos hm]
  · simp only [List.get_eq_getElem] at hm
    simp only [toggleRule, List.get_eq_getElem, List.getElem_map]
    rw [if_neg hm]
  · have hmap : (strategy.rules.map fun rule =>
        if rule.id = id then { rule with enabled := !rule.enabled } else rule) =
        strategy.rules := by
      have h2 : ∀ r ∈ strategy.rules,
          (if r.id = id then { r with enabled := !r.enabled } else r) = r :=
        fun r hr => if_neg (hnone r hr)
      rw [List.map_congr_left h2, List.map_id']
    show { strategy with rules := _ } = strategy
    rw [hmap]

/-- Concrete run of `toggleRule_frame`: toggling rule `r1` in a
two-rule strategy flips exactly that rule's `enabled` flag, and
toggling an unknown id is the identity. -/
theorem toggleRule_frame_witness :
    ((toggleRule
        ⟨"s1", "My Strategy", "1.0.0", none, ["SPY"],
          [⟨"r1", "Buy", none, "per_ticker",
            ⟨"crosses_above", createIndicator "ema", none, none, 1, none, none⟩,
            "buy", true, 0⟩,
           ⟨"r2", "Sell", none, "per_ticker",
            ⟨"crosses_below", createIndicator "ema", none, none, 1, none, none⟩,
            "sell", true, 1⟩],
          10000, 5, "fixed", 1000⟩ "r1").rules.length = 2) ∧
    toggleRule
        ⟨"s1", "My Strategy", "1.0.0", none, ["SPY"],
          [⟨"r1", "Buy", none, "per_ticker",
            ⟨"crosses_above", createIndicator "ema", none, none, 1, none, none⟩,
            "buy", true, 0⟩],
          10000, 5, "fixed", 1000⟩ "zzz" =
      ⟨"s1", "My Strategy", "1.0.0", none, ["SPY"],
        [⟨"r1", "Buy", none, "per_ticker",
          ⟨"crosses_above", createIndicator "ema", none, none, 1, none, none⟩,
          "buy", true, 0⟩],
        10000, 5, "fixed", 1000⟩ :=
  ⟨(toggleRule_frame
      ⟨"s1", "My Strategy", "1.0.0", none, ["SPY"],
        [⟨"r1", "Buy", none, "per_ticker",
          ⟨"crosses_above", createIndicator "ema", none, none, 1, none, none⟩,
          "buy", true, 0⟩,
         ⟨"r2", "Sell", none, "per_ticker",
          ⟨"crosses_below", createIndicator "ema", none, none, 1, none, none⟩,
          "sell", true, 1⟩],
        10000, 5, "fixed", 1000⟩ "r1").1,
    (toggleRule_frame
      ⟨"s1", "My Strategy", "1.0.0", none, ["SPY"],
        [⟨"r1", "Buy", none, "per_ticker",
          ⟨"crosses_above", createIndicator "ema", none, none, 1, none, none⟩,
          "buy", true, 0⟩],
        10000, 5, "fixed", 1000⟩ "zzz").2.2.1 (by decide)⟩

/-- C2: every condition object produced by `buildNewRule` satisfies the
spec's condition invariant: for crosses_above / crosses_below /
greater_than / less_than exactly one of `indicator_b` and `threshold`
is non-null; for slope_above / slope_below `threshold` is set and
`indicator_b` is null; for within_range both range bounds are set; and
`lookback_periods` is populated in every case. -/
theorem buildNewRule_condition_invariant (f : BuilderForm) (newId : String)
    (c : Condition) (hc : c = (buildNewRule f newId).condition) :
    (c.type ∈ ["crosses_above", "crosses_below", "greater_than", "less_than"] →
      (c.indicator_b.isSome = true ∧ c.threshold = none) ∨
      (c.indicator_b = none ∧ c.threshold.isSome = true)) ∧
    ((c.type = "slope_above" ∨ c.type = "slope_below") →
      c.threshold = some f.thresholdValue ∧ c.indicator_b = none) ∧
    (c.type = "within_range" →
      c.range_start = some f.rangeStart ∧ c.range_end = some f.rangeEnd) ∧
    c.lookback_periods = f.lookbackPeriods := by
  subst hc
  unfold buildNewRule
  dsimp only
  split_ifs with h1 h2 h3
  · refine ⟨fun hmem => ?_, fun hslope => ?_, fun _ => ⟨rfl, rfl⟩, rfl⟩
    · rw [h1] at hmem
      simp at hmem
    · rcases hslope with h | h <;> rw [h1] at h <;> simp at h
  · refine ⟨fun _ => Or.inl ⟨rfl, rfl⟩, fun hslope => ?_, fun hw => ?_, rfl⟩
    · obtain ⟨hB, -⟩ := h2
      have h4 : f.conditionType = "slope_above" ∨ f.conditionType = "slope_below" :=
        hslope
      rcases h4 with h | h <;> rw [h] at hB <;> simp at hB
    · exact absurd hw h1
  · refine ⟨fun _ => Or.inr ⟨rfl, rfl⟩, fun _ => ⟨rfl, rfl⟩, fun hw => ?_, rfl⟩
    exact absurd hw h1
  · refine ⟨fun hmem => ?_, fun hslope => ?_, fun hw => ?_, rfl⟩
    · by_cases hT : f.conditionType ∈
        ["greater_than", "less_than", "slope_above", "slope_below"]
      · exact absurd hT h3
      · exact absurd ⟨hmem, Or.inl hT⟩ h2
    · have h4 : f.conditionType = "slope_above" ∨ f.conditionType = "slope_below" :=
        hslope
      rcases h4 with h | h <;> exact (h3 (by rw [h]; decide)).elim
    · exact absurd hw h1

/-- Concrete run of `buildNewRule_condition_invariant`: a slope_above
rule built from the form gets `threshold = 30` and no second
indicator. -/
theorem buildNewRule_condition_invariant_witness :
    (buildNewRule ⟨"Slope Rule", "per_ticker", "slope_above", "buy", 0, 5,
        "indicator", 30, "09:30", "16:00", createIndicator "ema",
        createIndicator "ema"⟩ "rule-1").condition.threshold = some 30 ∧
      (buildNewRule ⟨"Slope Rule", "per_ticker", "slope_above", "buy", 0, 5,
        "indicator", 30, "09:30", "16:00", createIndicator "ema",
        createIndicator "ema"⟩ "rule-1").condition.indicator_b = none :=
  (buildNewRule_condition_invariant
    ⟨"Slope Rule", "per_ticker", "slope_above", "buy", 0, 5, "indicator", 30,
      "09:30", "16:00", createIndicator "ema", createIndicator "ema"⟩
    "rule-1" _ rfl).2.1 (Or.inl (by decide))

theorem pDefined_pset_ne (ps : List (String × ParamValue)) {k1 k : String}
    (v : ParamValue) (h : k1 ≠ k) :
    pDefined (pset ps k1 v) k = pDefined ps k := by
  unfold pDefined
  rw [pget_pset_ne ps v h]

theorem mem_splitFeatureColumns {s x : String}
    (hx : x ∈ splitFeatureColumns s) :
    x ≠ "" ∧ ∃ entry ∈ jsSplit s ',', x = jsTrim entry := by
  unfold splitFeatureColumns at hx
  have h1 := List.mem_filter.mp hx
  have h2 := List.mem_map.mp h1.1
  obtain ⟨entry, hentry, rfl⟩ := h2
  refine ⟨by simpa using h1.2, entry, hentry, rfl⟩

theorem normEmaLen_skip {i : Indicator}
    (h : ¬(i.type = "ema" ∨ i.type = "sma" ∨ i.type = "rsi")) :
    normEmaLen i = i := by
  unfold normEmaLen
  exact if_neg fun hc => h hc.1

theorem normMacd_skip {i : Indicator} (h : i.type ≠ "macd") :
    normMacd i = i := by
  unfold normMacd
  exact if_neg h

theorem normMacd_eq {i : Indicator} (h : i.type = "macd") :
    normMacd i = { i with
      params := psetD (psetD (psetD i.params "fast_period" (.num 12))
        "slow_period" (.num 26)) "signal_period" (.num 9) } := by
  unfold normMacd
  exact if_pos h

theorem normBollinger_skip {i : Indicator} (h : i.type ≠ "bollinger") :
    normBollinger i = i := by
  unfold normBollinger
  exact if_neg h

theorem normBollinger_eq {i : Indicator} (h : i.type = "bollinger") :
    normBollinger i = { i with
      length := some (i.length.getD 20)
      params := psetD (psetD i.params "std_dev" (.num 2)) "offset"
        (.num 0) } := by
  unfold normBollinger
  exact if_pos h

theorem normStochastic_skip {i : Indicator} (h : i.type ≠ "stochastic") :
    normStochastic i = i := by
  unfold normStochastic
  exact if_neg h

theorem normStochastic_eq {i : Indicator} (h : i.type = "stochastic") :
    normStochastic i = { i with
      params := psetD (psetD (psetD i.params "k_period" (.num 14))
        "d_period" (.num 3)) "smooth_k" (.num 3) } := by
  unfold normStochastic
  exact if_pos h

theorem normAlligator_skip {i : Indicator} (h : i.type ≠ "alligator") :
    normAlligator i = i := by
  unfold normAlligator
  exact if_neg h

theorem normAlligator_eq {i : Indicator} (h : i.type = "alligator") :
    normAlligator i = { i with
      params := psetD (psetD (psetD (psetD (psetD (psetD i.params
        "jaw_period" (.num 13)) "jaw_shift" (.num 8)) "teeth_period"
        (.num 8)) "teeth_shift" (.num 5)) "lips_period" (.num 5))
        "lips_shift" (.num 3) } := by
  unfold normAlligator
  exact if_pos h

theorem normMlColumn_skip {i : Indicator} (h : i.type ≠ "ml_signal") :
    normMlColumn i = i := by
  unfold normMlColumn
  exact if_neg h

theorem normMlColumn_eq {i : Indicator} (h : i.type = "ml_signal") :
    normMlColumn i = { i with
      params := psetD i.params "column" (.str "signal") } := by
  unfold normMlColumn
  exact if_pos h

theorem normMlFeatures_skip {i : Indicator} (h : i.type ≠ "ml_signal") :
    normMlFeatures i = i := by
  unfold normMlFeatures
  exact if_neg h

theorem pget_normMlFeatures_ne (i : Indicator) (k : String)
    (hk : k ≠ "feature_columns") :
    pget (normMlFeatures i).params k = pget i.params k := by
  unfold normMlFeatures
  split
  · split
    · exact pget_pset_ne i.params _ (Ne.symm hk)
    · rfl
  · rfl

theorem pDefined_normMlFeatures_ne (i : Indicator) (k : String)
    (hk : k ≠ "feature_columns") :
    pDefined (normMlFeatures i).params k = pDefined i.params k := by
  unfold pDefined
  rw [pget_normMlFeatures_ne i k hk]

theorem pget_normMlFeatures_fc {i : Indicator} {s : String}
    (h : i.type = "ml_signal")
    (hs : pget i.params "feature_columns" = some (.str s)) :
    pget (normMlFeatures i).params "feature_columns" =
      some (.strList (splitFeatureColumns s)) := by
  unfold normMlFeatures
  rw [if_pos h, hs]
  exact pget_pset_self _ _ _

/-- C3: after `normalizeIndicator`, every type-specific required
parameter is present: ema/sma/rsi get a truthy length (9 when the
input length was falsy); macd gets fast/slow/signal periods (12/26/9
when missing); bollinger gets a length (20 when missing), std_dev (2)
and offset (0); stochastic gets k/d/smooth_k periods (14/3/3);
alligator gets all six jaw/teeth/lips period and shift parameters
(13/8/8/5/5/3); ml_signal gets `column` (`"signal"` when missing) and
a string-valued `feature_columns` becomes a list of trimmed, non-empty
entries. -/
theorem normalizeIndicator_required_params (ind : Indicator) :
    ((ind.type = "ema" ∨ ind.type = "sma" ∨ ind.type = "rsi") →
      lengthTruthy (normalizeIndicator ind).length = true ∧
      (lengthTruthy ind.length = false →
        (normalizeIndicator ind).length = some 9)) ∧
    (ind.type = "macd" →
      pDefined (normalizeIndicator ind).params "fast_period" = true ∧
      pDefined (normalizeIndicator ind).params "slow_period" = true ∧
      pDefined (normalizeIndicator ind).params "signal_period" = true ∧
      (pDefined ind.params "fast_period" = false →
        pget (normalizeIndicator ind).params "fast_period" = some (.num 12)) ∧
      (pDefined ind.params "slow_period" = false →
        pget (normalizeIndicator ind).params "slow_period" = some (.num 26)) ∧
      (pDefined ind.params "signal_period" = false →
        pget (normalizeIndicator ind).params "signal_period" = some (.num 9))) ∧
    (ind.type = "bollinger" →
      (normalizeIndicator ind).length.isSome = true ∧
      (ind.length = none → (normalizeIndicator ind).length = some 20) ∧
      pDefined (normalizeIndicator ind).params "std_dev" = true ∧
      (pDefined ind.params "std_dev" = false →
        pget (normalizeIndicator ind).params "std_dev" = some (.num 2)) ∧
      pDefined (normalizeIndicator ind).params "offset" = true ∧
      (pDefined ind.params "offset" = false →
        pget (normalizeIndicator ind).params "offset" = some (.num 0))) ∧
    (ind.type = "stochastic" →
      pDefined (normalizeIndicator ind).params "k_period" = true ∧
      pDefined (normalizeIndicator ind).params "d_period" = true ∧
      pDefined (normalizeIndicator ind).params "smooth_k" = true ∧
      (pDefined ind.params "k_period" = false →
        pget (normalizeIndicator ind).params "k_period" = some (.num 14)) ∧
      (pDefined ind.params "d_period" = false →
        pget (normalizeIndicator ind).params "d_period" = some (.num 3)) ∧
      (pDefined ind.params "smooth_k" = false →
        pget (normalizeIndicator ind).params "smooth_k" = some (.num 3))) ∧
    (ind.type = "alligator" →
      pDefined (normalizeIndicator ind).params "jaw_period" = true ∧
      pDefined (normalizeIndicator ind).params "jaw_shift" = true ∧
      pDefined (normalizeIndicator ind).params "teeth_period" = true ∧
      pDefined (normalizeIndicator ind).params "teeth_shift" = true ∧
      pDefined (normalizeIndicator ind).params "lips_period" = true ∧
      pDefined (normalizeIndicator ind).params "lips_shift" = true) ∧
    (ind.type = "ml_signal" →
      pDefined (normalizeIndicator ind).params "column" = true ∧
      (pDefined ind.params "column" = false →
        pget (normalizeIndicator ind).params "column" = some (.str "signal")) ∧
      (∀ s : String, pget ind.params "feature_columns" = some (.str s) →
        pget (normalizeIndicator ind).params "feature_columns" =
          some (.strList (splitFeatureColumns s)) ∧
        ∀ x ∈ splitFeatureColumns s,
          x ≠ "" ∧ ∃ entry ∈ jsSplit s ',', x = jsTrim entry)) := by
  refine ⟨fun h => ?_, fun h => ?_, fun h => ?_, fun h => ?_, fun h => ?_,
    fun h => ?_⟩
  · by_cases hl : lengthTruthy ind.length = true
    · have e1 : normEmaLen ind = ind := by
        unfold normEmaLen
        exact if_neg fun hc => by rw [hl] at hc; exact absurd hc.2 (by decide)
      have hn : normalizeIndicator ind = ind := by
        unfold normalizeIndicator
        rw [e1, normMacd_skip (by rcases h with h | h | h <;> rw [h] <;> decide),
          normBollinger_skip (by rcases h with h | h | h <;> rw [h] <;> decide),
          normStochastic_skip (by rcases h with h | h | h <;> rw [h] <;> decide),
          normAlligator_skip (by rcases h with h | h | h <;> rw [h] <;> decide),
          normMlColumn_skip (by rcases h with h | h | h <;> rw [h] <;> decide),
          normMlFeatures_skip (by rcases h with h | h | h <;> rw [h] <;> decide)]
      exact ⟨by rw [hn]; exact hl,
        fun h2 => by rw [hl] at h2; exact absurd h2 (by decide)⟩
    · have hl2 : lengthTruthy ind.length = false := Bool.eq_false_iff.mpr hl
      have e1 : normEmaLen ind = { ind with length := some 9 } := by
        unfold normEmaLen
        exact if_pos ⟨h, hl2⟩
      have hn : normalizeIndicator ind = { ind with length := some 9 } := by
        unfold normalizeIndicator
        rw [e1,
          normMacd_skip (by
            show ind.type ≠ "macd"
            rcases h with h | h | h <;> rw [h] <;> decide),
          normBollinger_skip (by
            show ind.type ≠ "bollinger"
            rcases h with h | h | h <;> rw [h] <;> decide),
          normStochastic_skip (by
            show ind.type ≠ "stochastic"
            rcases h with h | h | h <;> rw [h] <;> decide),
          normAlligator_skip (by
            show ind.type ≠ "alligator"
            rcases h with h | h | h <;> rw [h] <;> decide),
          normMlColumn_skip (by
            show ind.type ≠ "ml_signal"
            rcases h with h | h | h <;> rw [h] <;> decide),
          normMlFeatures_skip (by
            show ind.type ≠ "ml_signal"
            rcases h with h | h | h <;> rw [h] <;> decide)]
      refine ⟨?_, fun _ => by rw [hn]⟩
      rw [hn]
      show lengthTruthy (some 9) = true
      simp [lengthTruthy]
  · have hp : (normalizeIndicator ind).params = psetD (psetD (psetD ind.params
        "fast_period" (.num 12)) "slow_period" (.num 26)) "signal_period"
        (.num 9) := by
      unfold normalizeIndicator
      rw [normEmaLen_skip (by rw [h]; decide), normMacd_eq h,
        normBollinger_skip (by show ind.type ≠ "bollinger"; rw [h]; decide),
        normStochastic_skip (by show ind.type ≠ "stochastic"; rw [h]; decide),
        normAlligator_skip (by show ind.type ≠ "alligator"; rw [h]; decide),
        normMlColumn_skip (by show ind.type ≠ "ml_signal"; rw [h]; decide),
        normMlFeatures_skip (by show ind.type ≠ "ml_signal"; rw [h]; decide)]
    refine ⟨?_, ?_, ?_, fun h2 => ?_, fun h2 => ?_, fun h2 => ?_⟩ <;> rw [hp]
    · rw [pDefined_psetD_ne _ _ (by decide), pDefined_psetD_ne _ _ (by decide)]
      exact pDefined_psetD_self _ _ _ (by decide)
    · rw [pDefined_psetD_ne _ _ (by decide)]
      exact pDefined_psetD_self _ _ _ (by decide)
    · exact pDefined_psetD_self _ _ _ (by decide)
    · rw [pget_psetD_ne _ _ (by decide), pget_psetD_ne _ _ (by decide)]
      exact pget_psetD_of_undef _ _ _ h2
    · rw [pget_psetD_ne _ _ (by decide)]
      exact pget_psetD_of_undef _ _ _ (by
        rw [pDefined_psetD_ne _ _ (by decide)]; exact h2)
    · exact pget_psetD_of_undef _ _ _ (by
        rw [pDefined_psetD_ne _ _ (by decide), pDefined_psetD_ne _ _ (by decide)]
        exact h2)
  · have hn : normalizeIndicator ind = { ind with
        length := some (ind.length.getD 20)
        params := psetD (psetD ind.params "std_dev" (.num 2)) "offset"
          (.num 0) } := by
      unfold normalizeIndicator
      rw [normEmaLen_skip (by rw [h]; decide),
        normMacd_skip (by rw [h]; decide), normBollinger_eq h,
        normStochastic_skip (by show ind.type ≠ "stochastic"; rw [h]; decide),
        normAlligator_skip (by show ind.type ≠ "alligator"; rw [h]; decide),
        normMlColumn_skip (by show ind.type ≠ "ml_signal"; rw [h]; decide),
        normMlFeatures_skip (by show ind.type ≠ "ml_signal"; rw [h]; decide)]
    have hp : (normalizeIndicator ind).params =
        psetD (psetD ind.params "std_dev" (.num 2)) "offset" (.num 0) := by
      rw [hn]
    have hlen : (normalizeIndicator ind).length =
        some (ind.length.getD 20) := by
      rw [hn]
    refine ⟨?_, fun h2 => ?_, ?_, fun h2 => ?_, ?_, fun h2 => ?_⟩
    · rw [hlen]
      rfl
    · rw [hlen, h2]
      rfl
    · rw [hp, pDefined_psetD_ne _ _ (by decide)]
      exact pDefined_psetD_self _ _ _ (by decide)
    · rw [hp, pget_psetD_ne _ _ (by decide)]
      exact pget_psetD_of_undef _ _ _ h2
    · rw [hp]
      exact pDefined_psetD_self _ _ _ (by decide)
    · rw [hp]
      exact pget_psetD_of_undef _ _ _ (by
        rw [pDefined_psetD_ne _ _ (by decide)]; exact h2)
  · have hp : (normalizeIndicator ind).params = psetD (psetD (psetD ind.params
        "k_period" (.num 14)) "d_period" (.num 3)) "smooth_k" (.num 3) := by
      unfold normalizeIndicator
      rw [normEmaLen_skip (by rw [h]; decide),
        normMacd_skip (by rw [h]; decide),
        normBollinger_skip (by rw [h]; decide), normStochastic_eq h,
        normAlligator_skip (by show ind.type ≠ "alligator"; rw [h]; decide),
        normMlColumn_skip (by show ind.type ≠ "ml_signal"; rw [h]; decide),
        normMlFeatures_skip (by show ind.type ≠ "ml_signal"; rw [h]; decide)]
    refine ⟨?_, ?_, ?_, fun h2 => ?_, fun h2 => ?_, fun h2 => ?_⟩ <;> rw [hp]
    · rw [pDefined_psetD_ne _ _ (by decide), pDefined_psetD_ne _ _ (by decide)]
      exact pDefined_psetD_self _ _ _ (by decide)
    · rw [pDefined_psetD_ne _ _ (by decide)]
      exact pDefined_psetD_self _ _ _ (by decide)
    · exact pDefined_psetD_self _ _ _ (by decide)
    · rw [pget_psetD_ne _ _ (by decide), pget_psetD_ne _ _ (by decide)]
      exact pget_psetD_of_undef _ _ _ h2
    · rw [pget_psetD_ne _ _ (by decide)]
      exact pget_psetD_of_undef _ _ _ (by
        rw [pDefined_psetD_ne _ _ (by decide)]; exact h2)
    · exact pget_psetD_of_undef _ _ _ (by
        rw [pDefined_psetD_ne _ _ (by decide), pDefined_psetD_ne _ _ (by decide)]
        exact h2)
  · have hp : (normalizeIndicator ind).params = psetD (psetD (psetD (psetD
        (psetD (psetD ind.params "jaw_period" (.num 13)) "jaw_shift" (.num 8))
        "teeth_period" (.num 8)) "teeth_shift" (.num 5)) "lips_period"
        (.num 5)) "lips_shift" (.num 3) := by
      unfold normalizeIndicator
      rw [normEmaLen_skip (by rw [h]; decide),
        normMacd_skip (by rw [h]; decide),
        normBollinger_skip (by rw [h]; decide),
        normStochastic_skip (by rw [h]; decide), normAlligator_eq h,
        normMlColumn_skip (by show ind.type ≠ "ml_signal"; rw [h]; decide),
        normMlFeatures_skip (by show ind.type ≠ "ml_signal"; rw [h]; decide)]
    refine ⟨?_, ?_, ?_, ?_, ?_, ?_⟩ <;> rw [hp]
    · rw [pDefined_psetD_ne _ _ (by decide), pDefined_psetD_ne _ _ (by decide),
        pDefined_psetD_ne _ _ (by decide), pDefined_psetD_ne _ _ (by decide),
        pDefined_psetD_ne _ _ (by decide)]
      exact pDefined_psetD_self _ _ _ (by decide)
    · rw [pDefined_psetD_ne _ _ (by decide), pDefined_psetD_ne _ _ (by decide),
        pDefined_psetD_ne _ _ (by decide), pDefined_psetD_ne _ _ (by decide)]
      exact pDefined_psetD_self _ _ _ (by decide)
    · rw [pDefined_psetD_ne _ _ (by decide), pDefined_psetD_ne _ _ (by decide),
        pDefined_psetD_ne _ _ (by decide)]
      exact pDefined_psetD_self _ _ _ (by decide)
    · rw [pDefined_psetD_ne _ _ (by decide), pDefined_psetD_ne _ _ (by decide)]
      exact pDefined_psetD_self _ _ _ (by decide)
    · rw [pDefined_psetD_ne _ _ (by decide)]
      exact pDefined_psetD_self _ _ _ (by decide)
    · exact pDefined_psetD_self _ _ _ (by decide)
  · have e6 : normMlColumn ind = { ind with
        params := psetD ind.params "column" (.str "signal") } :=
      normMlColumn_eq h
    have hn : normalizeIndicator ind = normMlFeatures { ind with
        params := psetD ind.params "column" (.str "signal") } := by
      unfold normalizeIndicator
      rw [normEmaLen_skip (by rw [h]; decide),
        normMacd_skip (by rw [h]; decide),
        normBollinger_skip (by rw [h]; decide),
        normStochastic_skip (by rw [h]; decide),
        normAlligator_skip (by rw [h]; decide), e6]
    have hfc : pget ({ ind with
        params := psetD ind.params "column" (ParamValue.str "signal") } :
        Indicator).params "feature_columns" =
        pget ind.params "feature_columns" :=
      pget_psetD_ne ind.params _ (by decide)
    refine ⟨?_, fun h2 => ?_, fun s hs => ?_⟩
    · rw [hn, pDefined_normMlFeatures_ne _ _ (by decide)]
      exact pDefined_psetD_self _ _ _ (by decide)
    · rw [hn, pget_normMlFeatures_ne _ _ (by decide)]
      exact pget_psetD_of_undef _ _ _ h2
    · refine ⟨?_, fun x hx => mem_splitFeatureColumns hx⟩
      rw [hn]
      exact pget_normMlFeatures_fc h (hfc.trans hs)

/-- Concrete run of `normalizeIndicator_required_params`: a bare macd
indicator receives fast/slow/signal period defaults 12/26/9, and a bare
ml_signal indicator receives `column = "signal"`. -/
theorem normalizeIndicator_required_params_witness :
    pget (normalizeIndicator
        ⟨"macd", none, "5m", "close", none, [], none⟩).params "fast_period" =
      some (.num 12) ∧
    pget (normalizeIndicator
        ⟨"ml_signal", none, "5m", "close", none, [], none⟩).params "column" =
      some (.str "signal") :=
  ⟨((normalizeIndicator_required_params
      ⟨"macd", none, "5m", "close", none, [], none⟩).2.1 rfl).2.2.2.1 rfl,
    ((normalizeIndicator_required_params
      ⟨"ml_signal", none, "5m", "close", none, [], none⟩).2.2.2.2.2 rfl).2.1
      rfl⟩

theorem cacheGet_cacheSet_self (c : List (String × CacheEntry)) (k : String)
    (e : CacheEntry) : cacheGet (cacheSet c k e) k = some e := by
  induction c with
  | nil => simp [cacheSet, cacheGet]
  | cons hd rest ih =>
      obtain ⟨k1, e1⟩ := hd
      by_cases h : k1 = k
      · simp [cacheSet, cacheGet, h]
      · simp [cacheSet, cacheGet, h, ih]

theorem cacheGet_filter_self (c : List (String × CacheEntry)) (k : String) :
    cacheGet (c.filter (fun p => p.1 != k)) k = none := by
  induction c with
  | nil => simp [cacheGet]
  | cons hd rest ih =>
      obtain ⟨k1, e1⟩ := hd
      by_cases h : k1 = k
      · simp [List.filter, h, ih]
      · have hb : (k1 != k) = true := by simp [h]
        simp only [List.filter, hb]
        simp [cacheGet, h, ih]

/-- C7: `validateStrategy` throws an `ApiError` — recorded as the last
API error — exactly when the response is not ok; on an ok response it
returns the backend's parsed `{valid, errors}` body unchanged and
leaves the state untouched; and in both cases the cache (hence the
cached strategy entry) is unchanged, unlike
`saveStrategy`/`importStrategy` which write it. -/
theorem validateStrategy_spec (resp : ValidateResponse) (st : ClientState) :
    ((validateStrategy resp st).2.cache = st.cache) ∧
    (resp.http.ok = true → validateStrategy resp st = (.ok resp.body, st)) ∧
    (resp.http.ok = false →
      validateStrategy resp st =
        (.error (buildApiErrorE resp.http "Strategy validation"),
          { st with
            lastApiError :=
              some (buildApiErrorE resp.http "Strategy validation") })) ∧
    ((∃ e, (validateStrategy resp st).1 = .error e) ↔ resp.http.ok = false) := by
  unfold validateStrategy buildApiError
  by_cases h : resp.http.ok <;> simp [h]

/-- Concrete run of `validateStrategy_spec`: an ok 200 response returns
the parsed body and leaves the state unchanged; a failing 422 response
leaves the cache unchanged. -/
theorem validateStrategy_spec_witness :
    validateStrategy ⟨⟨true, 200, "OK", "/api/v1/strategy/validate", "", none⟩,
        ⟨true, []⟩⟩ ⟨[], none⟩ = (.ok ⟨true, []⟩, ⟨[], none⟩) ∧
      (validateStrategy
          ⟨⟨false, 422, "Unprocessable Entity", "/api/v1/strategy/validate",
            "bad", none⟩, ⟨false, []⟩⟩ ⟨[], none⟩).2.cache = [] :=
  ⟨(validateStrategy_spec
      ⟨⟨true, 200, "OK", "/api/v1/strategy/validate", "", none⟩, ⟨true, []⟩⟩
      ⟨[], none⟩).2.1 rfl,
    (validateStrategy_spec
      ⟨⟨false, 422, "Unprocessable Entity", "/api/v1/strategy/validate",
        "bad", none⟩, ⟨false, []⟩⟩ ⟨[], none⟩).1⟩

theorem getCached_some_state {st : ClientState} {key : String} {now : Int}
    {v : CacheValue} {st1 : ClientState}
    (h : getCached st key now = (some v, st1)) :
    st1 = st ∧ ∃ e : CacheEntry, cacheGet st.cache key = some e ∧
      e.value = v ∧ ¬e.expiresAt < now := by
  unfold getCached at h
  split at h
  · simp at h
  · rename_i entry heq
    split at h
    · simp at h
    · rename_i hex
      have h1 := (Prod.ext_iff.mp h).1
      have h2 := (Prod.ext_iff.mp h).2
      exact ⟨h2.symm, entry, heq, Option.some_inj.mp h1, hex⟩

theorem getCached_none_state {st : ClientState} {key : String} {now : Int}
    {st1 : ClientState} (h : getCached st key now = (none, st1)) :
    cacheGet st1.cache key = cacheGet st.cache key ∨
      cacheGet st1.cache key = none := by
  unfold getCached at h
  split at h
  · left
    rw [show st1 = st from ((Prod.ext_iff.mp h).2).symm]
  · rename_i entry heq
    split at h
    · right
      rw [show st1 = { st with
          cache := st.cache.filter (fun p => p.1 != key) }
        from ((Prod.ext_iff.mp h).2).symm]
      exact cacheGet_filter_self st.cache key
    · simp at h

theorem getBacktestResults_cacheGet_cases (jobId : String) (force : Bool)
    (resp : BacktestResultsHttp) (st : ClientState) (now ttl : Int) :
    cacheGet (getBacktestResults jobId force resp st now ttl).2.cache
        (backtestResultsKey jobId) =
      cacheGet st.cache (backtestResultsKey jobId) ∨
    cacheGet (getBacktestResults jobId force resp st now ttl).2.cache
        (backtestResultsKey jobId) = none ∨
    (resp.body.status = "completed" ∧
      cacheGet (getBacktestResults jobId force resp st now ttl).2.cache
          (backtestResultsKey jobId) =
        some ⟨.backtest resp.body, now + ttl⟩) := by
  unfold getBacktestResults
  dsimp only
  split
  · rename_i v st1 heq
    have hst : st1 = st := by
      by_cases hf : force
      · rw [if_pos hf] at heq
        simp at heq
      · rw [if_neg hf] at heq
        exact (getCached_some_state heq).1
    exact Or.inl (by rw [hst])
  · rename_i st1 heq
    have hst : cacheGet st1.cache (backtestResultsKey jobId) =
        cacheGet st.cache (backtestResultsKey jobId) ∨
        cacheGet st1.cache (backtestResultsKey jobId) = none := by
      by_cases hf : force
      · rw [if_pos hf] at heq
        left
        rw [show st1 = st from ((Prod.ext_iff.mp heq).2).symm]
      · rw [if_neg hf] at heq
        exact getCached_none_state heq
    by_cases hok : resp.http.ok = false
    · rw [if_pos hok]
      rcases hst with h | h
      · exact Or.inl h
      · exact Or.inr (Or.inl h)
    · rw [if_neg hok]
      by_cases hc : resp.body.status = "completed"
      · rw [if_pos hc]
        exact Or.inr (Or.inr ⟨hc, by
          simp [setCached, cacheGet_cacheSet_self]⟩)
      · rw [if_neg hc]
        rcases hst with h | h
        · exact Or.inl h
        · exact Or.inr (Or.inl h)

/-- C9: the backtest-results cache only ever holds completed results:
if every entry under `backtest_results:<jobId>` carries a completed
`.backtest` value, that stays true after any call; a non-completed
response is never stored (an uncached job stays uncached, so the next
call re-fetches); a fresh cached value is served back without a fetch;
and a completed fetched response is stored under the key with expiry
`now + ttl`. -/
theorem getBacktestResults_cache_completed (jobId : String) (force : Bool)
    (resp : BacktestResultsHttp) (st : ClientState) (now ttl : Int) :
    ((∀ e, cacheGet st.cache (backtestResultsKey jobId) = some e →
        ∃ r, e.value = .backtest r ∧ r.status = "completed") →
      ∀ e, cacheGet (getBacktestResults jobId force resp st now ttl).2.cache
          (backtestResultsKey jobId) = some e →
        ∃ r, e.value = .backtest r ∧ r.status = "completed") ∧
    (resp.body.status ≠ "completed" →
      cacheGet st.cache (backtestResultsKey jobId) = none →
      cacheGet (getBacktestResults jobId force resp st now ttl).2.cache
        (backtestResultsKey jobId) = none) ∧
    (force = false →
      ∀ e, cacheGet st.cache (backtestResultsKey jobId) = some e →
        ¬e.expiresAt < now →
        getBacktestResults jobId force resp st now ttl = (.ok e.value, st)) ∧
    (force = false →
      cacheGet st.cache (backtestResultsKey jobId) = none →
      resp.http.ok = true → resp.body.status = "completed" →
      cacheGet (getBacktestResults jobId force resp st now ttl).2.cache
          (backtestResultsKey jobId) =
        some ⟨.backtest resp.body, now + ttl⟩) := by
  refine ⟨fun hinv e he => ?_, fun hnc hmiss => ?_, fun hf e he hex => ?_,
    fun hf hmiss hok hc => ?_⟩
  · rcases getBacktestResults_cacheGet_cases jobId force resp st now ttl with
      h | h | h
    · exact hinv e (h ▸ he)
    · rw [h] at he
      cases he
    · rw [h.2] at he
      obtain rfl := Option.some_inj.mp he.symm
      exact ⟨resp.body, rfl, h.1⟩
  · rcases getBacktestResults_cacheGet_cases jobId force resp st now ttl with
      h | h | h
    · rw [h, hmiss]
    · exact h
    · exact absurd h.1 hnc
  · subst hf
    have hgc : getCached st (backtestResultsKey jobId) now =
        (some e.value, st) := by
      unfold getCached
      rw [he]
      dsimp only
      rw [if_neg hex]
    simp [getBacktestResults, hgc]
  · subst hf
    have hgc : getCached st (backtestResultsKey jobId) now = (none, st) := by
      unfold getCached
      rw [hmiss]
    simp [getBacktestResults, hgc, hok, hc, setCached,
      cacheGet_cacheSet_self]

/-- Concrete run of `getBacktestResults_cache_completed`: a completed
response for job `j1` is stored under `backtest_results:j1` with the
60000 ms policy expiry, while a running response is not stored. -/
theorem getBacktestResults_cache_completed_witness :
    cacheGet (getBacktestResults "j1" false
        ⟨⟨true, 200, "OK", "/api/v1/backtest/j1/results", "", none⟩,
          ⟨"j1", "completed", none, none⟩⟩ ⟨[], none⟩ 1000 60000).2.cache
        (backtestResultsKey "j1") =
      some ⟨.backtest ⟨"j1", "completed", none, none⟩, 61000⟩ ∧
    cacheGet (getBacktestResults "j1" false
        ⟨⟨true, 200, "OK", "/api/v1/backtest/j1/results", "", none⟩,
          ⟨"j1", "running", none, none⟩⟩ ⟨[], none⟩ 1000 60000).2.cache
        (backtestResultsKey "j1") = none :=
  ⟨(getBacktestResults_cache_completed "j1" false
      ⟨⟨true, 200, "OK", "/api/v1/backtest/j1/results", "", none⟩,
        ⟨"j1", "completed", none, none⟩⟩ ⟨[], none⟩ 1000 60000).2.2.2
      rfl rfl rfl rfl,
    (getBacktestResults_cache_completed "j1" false
      ⟨⟨true, 200, "OK", "/api/v1/backtest/j1/results", "", none⟩,
        ⟨"j1", "running", none, none⟩⟩ ⟨[], none⟩ 1000 60000).2.1
      (by decide) rfl⟩

theorem mem_insertByPriority {a x : EvalRule} {l : List EvalRule} :
    a ∈ insertByPriority x l ↔ a = x ∨ a ∈ l := by
  induction l with
  | nil => simp [insertByPriority]
  | cons y ys ih =>
      simp only [insertByPriority]
      split
      · simp [ih]
        tauto
      · simp

theorem mem_sortByPriority {a : EvalRule} {xs : List EvalRule} :
    a ∈ sortByPriority xs ↔ a ∈ xs := by
  suffices h : ∀ acc : List EvalRule,
      a ∈ xs.foldl (fun acc x => insertByPriority x acc) acc ↔
        a ∈ acc ∨ a ∈ xs by
    simpa [sortByPriority] using h []
  induction xs with
  | nil => simp
  | cons x xs ih =>
      intro acc
      rw [List.foldl_cons, ih, mem_insertByPriority]
      simp
      tauto

/-- C1: if any enabled global-scope filter rule's condition evaluates
definitively to `false` this cycle, the evaluator's action map is
empty for all instruments, regardless of what the per-ticker rules
would have produced. -/
theorem gate_false_empty_actions (rules : List EvalRule)
    (tickers : List String) (evalG : EvalRule → TriBool)
    (evalT : String → EvalRule → TriBool)
    (hr : ∃ r ∈ rules, r.enabled = true ∧ r.scope = .global ∧
      r.action = .filter ∧ evalG r = .isFalse) :
    evaluateCycle rules tickers evalG evalT = [] := by
  obtain ⟨r, hmem, hen, hsc, hac, hev⟩ := hr
  have hg : gateClosed rules evalG = true := by
    unfold gateClosed
    rw [List.any_eq_true]
    refine ⟨r, ?_, by simp [hev]⟩
    rw [mem_sortByPriority]
    exact List.mem_filter.mpr ⟨hmem, by simp [hen, hsc, hac]⟩
  unfold evaluateCycle
  rw [hg]
  rfl

/-- Concrete run of `gate_false_empty_actions`: a strategy with a
false VIX-style global filter and a per-ticker buy rule that would
otherwise match yields an empty action map for QQQ. -/
theorem gate_false_empty_actions_witness :
    evaluateCycle
        [⟨"f1", .global, .filter, true, 0⟩,
         ⟨"b1", .perTicker, .buy, true, 1⟩]
        ["QQQ"]
        (fun r => if r.id == "f1" then .isFalse else .isTrue)
        (fun _ _ => .isTrue) = [] :=
  gate_false_empty_actions _ _ _ _
    ⟨⟨"f1", .global, .filter, true, 0⟩, by decide, rfl, rfl, rfl, rfl⟩
end TwsBot

